import Mathlib

/-!
# Verification of the rowy row-mutation layer and filter precedence

Shallow embedding of the jotai set-atoms in `rowActions` (addRowAtom,
deleteRowAtom, bulkAddRowsAtom, updateFieldAtom) and of the filter-selection
effect in `components/TableHeader/Filters`.  JavaScript values are modelled by
the inductive `Value` (with an explicit `undef` constructor, since the code
distinguishes `undefined` via `=== undefined` checks and JS object spreads can
carry explicit `undefined`).  Each atom is embedded as a pure function from an
environment snapshot (the jotai atom reads) and its argument to
`Except String (List Effect)`: `Except.error` models a thrown `Error` (thrown
before any effect, per the source order), and the effect trace records local
row-state operations, remote database writes/deletes, and audit-log calls in
program order.
-/

namespace Rowy

/-- A JavaScript value as manipulated by the row-mutation code: `undefined`,
`null`, booleans, numbers, strings, arrays and plain objects (ordered field
lists, unique keys by construction of the operations below). -/
inductive Value where
  | undef : Value
  | null : Value
  | bool : Bool → Value
  | num : Int → Value
  | str : String → Value
  | arr : List Value → Value
  | obj : List (String × Value) → Value
deriving Repr

mutual

def decEqValue : (a b : Value) → Decidable (a = b)
  | .undef, .undef => isTrue rfl
  | .null, .null => isTrue rfl
  | .bool a, .bool b =>
    if h : a = b then isTrue (by rw [h]) else isFalse (fun hh => h (by injection hh))
  | .num a, .num b =>
    if h : a = b then isTrue (by rw [h]) else isFalse (fun hh => h (by injection hh))
  | .str a, .str b =>
    if h : a = b then isTrue (by rw [h]) else isFalse (fun hh => h (by injection hh))
  | .arr xs, .arr ys =>
    match decEqValueList xs ys with
    | isTrue h => isTrue (by rw [h])
    | isFalse h => isFalse (fun hh => h (by injection hh))
  | .obj xs, .obj ys =>
    match decEqValueFields xs ys with
    | isTrue h => isTrue (by rw [h])
    | isFalse h => isFalse (fun hh => h (by injection hh))
  | .undef, .null | .undef, .bool _ | .undef, .num _ | .undef, .str _
  | .undef, .arr _ | .undef, .obj _ => isFalse (by simp)
  | .null, .undef | .null, .bool _ | .null, .num _ | .null, .str _
  | .null, .arr _ | .null, .obj _ => isFalse (by simp)
  | .bool _, .undef | .bool _, .null | .bool _, .num _ | .bool _, .str _
  | .bool _, .arr _ | .bool _, .obj _ => isFalse (by simp)
  | .num _, .undef | .num _, .null | .num _, .bool _ | .num _, .str _
  | .num _, .arr _ | .num _, .obj _ => isFalse (by simp)
  | .str _, .undef | .str _, .null | .str _, .bool _ | .str _, .num _
  | .str _, .arr _ | .str _, .obj _ => isFalse (by simp)
  | .arr _, .undef | .arr _, .null | .arr _, .bool _ | .arr _, .num _
  | .arr _, .str _ | .arr _, .obj _ => isFalse (by simp)
  | .obj _, .undef | .obj _, .null | .obj _, .bool _ | .obj _, .num _
  | .obj _, .str _ | .obj _, .arr _ => isFalse (by simp)

def decEqValueList : (a b : List Value) → Decidable (a = b)
  | [], [] => isTrue rfl
  | [], _ :: _ => isFalse (by simp)
  | _ :: _, [] => isFalse (by simp)
  | x :: xs, y :: ys =>
    match decEqValue x y with
    | isFalse h => isFalse (fun hh => h (by injection hh))
    | isTrue h1 =>
      match decEqValueList xs ys with
      | isTrue h2 => isTrue (by rw [h1, h2])
      | isFalse h2 => isFalse (fun hh => h2 (by injection hh))

def decEqValueFields : (a b : List (String × Value)) → Decidable (a = b)
  | [], [] => isTrue rfl
  | [], _ :: _ => isFalse (by simp)
  | _ :: _, [] => isFalse (by simp)
  | (k1, v1) :: xs, (k2, v2) :: ys =>
    if hk : k1 = k2 then
      match decEqValue v1 v2 with
      | isFalse h => isFalse (fun hh => by
          injection hh with h1 h2
          exact h (congrArg Prod.snd h1))
      | isTrue h1 =>
        match decEqValueFields xs ys with
        | isTrue h2 => isTrue (by rw [hk, h1, h2])
        | isFalse h2 => isFalse (fun hh => h2 (by injection hh))
    else isFalse (fun hh => by
      injection hh with h1 h2
      exact hk (congrArg Prod.fst h1))

end

instance : DecidableEq Value := decEqValue

instance {ε α : Type} [DecidableEq ε] [DecidableEq α] : DecidableEq (Except ε α) :=
  fun a b =>
    match a, b with
    | Except.ok x, Except.ok y =>
      if h : x = y then isTrue (by rw [h]) else isFalse (fun hh => h (by injection hh))
    | Except.error x, Except.error y =>
      if h : x = y then isTrue (by rw [h]) else isFalse (fun hh => h (by injection hh))
    | Except.ok _, Except.error _ => isFalse (fun hh => Except.noConfusion hh)
    | Except.error _, Except.ok _ => isFalse (fun hh => Except.noConfusion hh)

/-- Split a character list on a separator character (JS
`String.prototype.split` with a one-character separator). -/
def splitOnCharAux (c : Char) : List Char → List Char → List String
  | [], acc => [String.mk acc.reverse]
  | x :: xs, acc =>
    if x = c then String.mk acc.reverse :: splitOnCharAux c xs []
    else splitOnCharAux c xs (x :: acc)

/-- JS `s.split(c)` for a one-character separator `c`. -/
def splitOnChar (c : Char) (s : String) : List String :=
  splitOnCharAux c s.data []

/-- Whether the first character list is an initial segment of the second. -/
def startsWithChars : List Char → List Char → Bool
  | [], _ => true
  | _ :: _, [] => false
  | p :: ps, c :: cs => p = c && startsWithChars ps cs

/-- JS `s.startsWith(front)`. -/
def strStartsWith (s front : String) : Bool :=
  startsWithChars front.data s.data

/-- JS `parts.join("/")`. -/
def joinWithSlash : List String → String
  | [] => ""
  | [s] => s
  | s :: s2 :: rest => s ++ "/" ++ joinWithSlash (s2 :: rest)

/-- Object field lists (also the non-`_rowy_ref` fields of a table row). -/
abbrev Fields := List (String × Value)

/-- JS `o[k]` on an object: the value at the first matching key, `undefined`
when the key is absent. -/
def getField (fields : Fields) (k : String) : Value :=
  match fields.find? (fun p => p.1 = k) with
  | some p => p.2
  | none => Value.undef

/-- JS `o[k] = v` on an object: replace the value at an existing key in place,
otherwise append the key. -/
def setField (fields : Fields) (k : String) (v : Value) : Fields :=
  match fields with
  | [] => [(k, v)]
  | (k', v') :: rest =>
    if k' = k then (k', v) :: rest else (k', v') :: setField rest k v

/-- JS object spread `{ ...a, ...b }`: fields of `b` override or extend `a`. -/
def mergeFields (a b : Fields) : Fields :=
  b.foldl (fun acc p => setField acc p.1 p.2) a

/-- The `_rowy_ref` of a row: document id and full path. -/
structure RowRef where
  id : String
  path : String
deriving Repr, DecidableEq

/-- A `TableRow`: its `_rowy_ref` together with all other fields (including
`_rowy_outOfOrder` when present, stored under that key in `data`). -/
structure TableRow where
  ref : RowRef
  data : Fields
deriving Repr, DecidableEq

/-- Modelled from the spec: `omitRowyFields` (from `@src/utils/table`, not in
the sources) strips the rowy-internal fields, i.e. every field whose key
carries the `_rowy_` prefix, on a plain object. -/
def omitRowyFieldsData (d : Fields) : Fields :=
  d.filter (fun p => ¬ strStartsWith p.1 "_rowy_")

/-- The `omitRowyFields` model applied to a full table row (its `_rowy_ref`, kept
separately in the model, is rowy-internal and dropped). -/
def omitRowyFields (row : TableRow) : Fields :=
  omitRowyFieldsData row.data

/-- Modelled from the spec: `rowyUser` (from `@src/utils/table`, not in the
sources) produces the object recorded in audit fields for the current user. -/
def rowyUser (currentUser : Value) : Value :=
  Value.obj [("displayName", currentUser)]

/-- Modelled from the spec: `decrementId` (from `@src/utils/table`, not in the
sources) produces the id preceding the given id (`undefined` allowed when the
table has no database rows). -/
def decrementId (lastId : Option String) : String :=
  match lastId with
  | some s => s ++ "-"
  | none => "zzz"

/-- JS `||` with a string default: `undefined` and the empty string are falsy. -/
def strOrDefault (s : Option String) (d : String) : String :=
  match s with
  | none => d
  | some v => if v = "" then d else v

/-- A table filter: `{ key, operator, value }`. -/
structure TableFilter where
  key : String
  operator : String
  value : Value
deriving Repr, DecidableEq

/-- A table column as read by the mutation atoms: its key, and the parts of
`column.config` the code inspects (`required`, `defaultValue.type`,
`defaultValue.value`). -/
structure Column where
  key : String
  required : Bool
  defaultValueType : Option String
  defaultValue : Option Value
deriving Repr, DecidableEq

/-- Table settings as read by the mutation atoms: `audit` (absent, `true` or
`false`), and the configurable audit field names. -/
structure TableSettings where
  audit : Option Bool
  auditFieldCreatedBy : Option String
  auditFieldUpdatedBy : Option String
deriving Repr, DecidableEq

/-- An operation of the bulk write function: `{ type: "add", path, data }`. -/
structure BulkOperation where
  type : String
  path : String
  data : Fields
deriving Repr, DecidableEq

/-- One observable effect of a mutation atom, in program order: an operation
dispatched to `tableRowsLocalAtom`, a remote database call, or an audit-log
call. -/
inductive Effect where
  | localAdd : TableRow → Effect
  | localDelete : String → Effect
  | localUpdate : String → Fields → List String → Effect
  | dbUpdate : String → Fields → List String → Effect
  | dbDelete : String → Effect
  | dbBulk : List BulkOperation → Effect
  | audit : String → String → Option String → Effect
deriving Repr, DecidableEq

/-- The environment snapshot a mutation atom reads from its jotai store:
whether each database function is set, the table settings, current user,
whether an audit change function is configured, filters, ordered columns, and
the three row collections. -/
structure Env where
  updateRowDb : Bool
  deleteRowDb : Bool
  bulkWriteDb : Bool
  tableSettings : Option TableSettings
  currentUser : Option Value
  auditChange : Bool
  tableFilters : List TableFilter
  tableColumnsOrdered : List Column
  tableRowsDb : List TableRow
  tableRows : List TableRow
  tableRowsLocal : List TableRow
  gen : Nat → String

/-! ## addRowAtom -/

/-- The `setId` option of `addRowAtom`: `"random"` or `"decrement"` (or absent,
modelled with `Option`). -/
inductive SetIdOpt where
  | random
  | decrement
deriving Repr, DecidableEq

/-- The `IAddRowOptions` argument: the row or array of rows, plus the two options (an
absent `ignoreRequiredFields` is falsy, modelled as `false`). -/
structure AddRowOptions where
  row : TableRow ⊕ List TableRow
  ignoreRequiredFields : Bool
  setId : Option SetIdOpt

/-- A JS `Set` built from a list of keys: insertion order, duplicates kept
once. -/
def setOfKeys (ks : List String) : List String :=
  ks.foldl (fun acc k => if k ∈ acc then acc else acc ++ [k]) []

/-- One iteration of the loop over `tableFilters` in `_addSingleRowAndAudit`:
assign an initial value for a `"=="` or `"array-contains"` filter and remove
its key from the `outOfOrderFilters` set. -/
def addRowFilterStep (acc : Fields × List String) (filter : TableFilter) :
    Fields × List String :=
  if filter.operator = "==" then
    (setField acc.1 filter.key filter.value, acc.2.erase filter.key)
  else if filter.operator = "array-contains" then
    (setField acc.1 filter.key (Value.arr [filter.value]), acc.2.erase filter.key)
  else acc

/-- The loop over `tableFilters` in `_addSingleRowAndAudit`: assign initial
values for `"=="` and `"array-contains"` filters while removing their keys
from the `outOfOrderFilters` set.  Returns the assigned initial data and the
remaining out-of-order filter keys. -/
def addRowFilterData (filters : List TableFilter) : Fields × List String :=
  filters.foldl addRowFilterStep ([], setOfKeys (filters.map (fun f => f.key)))

/-- The loop over `tableColumnsOrdered` setting column default values:
`"static"` defaults write `defaultValue.value`, `"null"` defaults write
`null`. -/
def applyColumnDefaults (d : Fields) (cols : List Column) : Fields :=
  cols.foldl
    (fun d c =>
      if c.defaultValueType = some "static" then
        setField d c.key (c.defaultValue.getD Value.undef)
      else if c.defaultValueType = some "null" then setField d c.key Value.null
      else d)
    d

/-- The audit-field block shared by `addRowAtom` and `bulkAddRowsAtom`: when
`tableSettings.audit !== false`, write `rowyUser(currentUser)` under the
created-by and updated-by field names (with defaults `"_createdBy"` and
`"_updatedBy"`). -/
def applyAuditFieldsCreate (ts : TableSettings) (user : Value) (d : Fields) :
    Fields :=
  if ts.audit ≠ some false then
    let auditValue := rowyUser user
    setField
      (setField d (strOrDefault ts.auditFieldCreatedBy "_createdBy") auditValue)
      (strOrDefault ts.auditFieldUpdatedBy "_updatedBy") auditValue
  else d

/-- The `initialValues` object composed by `_addSingleRowAndAudit` (its data
fields; its `_rowy_ref` is the row's own, kept separately in the model). -/
def addRowInitialValues (ts : TableSettings) (user : Value)
    (filters : List TableFilter) (cols : List Column) : Fields :=
  applyAuditFieldsCreate ts user (applyColumnDefaults (addRowFilterData filters).1 cols)

/-- The keys of the columns marked required. -/
def requiredFieldsOf (cols : List Column) : List String :=
  (cols.filter (fun c => c.required)).map (fun c => c.key)

/-- The required fields the given row leaves `undefined` (empty when
`ignoreRequiredFields` is set). -/
def missingRequiredFields (ignore : Bool) (cols : List Column) (row : TableRow) :
    List String :=
  if ignore then []
  else (requiredFieldsOf cols).filter (fun f => getField row.data f = Value.undef)

/-- The `_addSingleRowAndAudit` closure: compose initial values from filters, column
defaults and audit fields; add to `tableRowsLocalAtom` when required fields
are missing, the row is deliberately out of order, a filter key could not be
matched, or `setId` is not `"decrement"`; write to the database when no
required field is missing; audit when configured. -/
def addSingleRowAndAudit (env : Env) (ts : TableSettings) (user : Value)
    (ignoreRequiredFields : Bool) (setId : Option SetIdOpt) (row : TableRow) :
    List Effect :=
  let fi := addRowFilterData env.tableFilters
  let outOfOrderFilters := fi.2
  let initialValues :=
    applyAuditFieldsCreate ts user (applyColumnDefaults fi.1 env.tableColumnsOrdered)
  let missing := missingRequiredFields ignoreRequiredFields env.tableColumnsOrdered row
  let rowValues : TableRow := ⟨row.ref, mergeFields initialValues row.data⟩
  let outOfOrderFlag : Bool :=
    decide (getField row.data "_rowy_outOfOrder" = Value.bool true) ||
    decide (outOfOrderFilters ≠ []) || decide (setId ≠ some SetIdOpt.decrement)
  (if missing ≠ [] ∨ outOfOrderFlag then
      [Effect.localAdd
        ⟨rowValues.ref,
         setField rowValues.data "_rowy_outOfOrder" (Value.bool outOfOrderFlag)⟩]
    else [])
    ++ (if missing = [] then
          [Effect.dbUpdate row.ref.path (omitRowyFields rowValues) []]
        else [])
    ++ (if env.auditChange then [Effect.audit "ADD_ROW" row.ref.path none] else [])

/-- JS `path.split("/").slice(0, -1).join("/")`. -/
def parentPathOf (path : String) : String :=
  joinWithSlash ((splitOnChar '/' path).dropLast)

/-- The id `addRowAtom` assigns to one row: a fresh random id, the decrement
of the chained last id, or the row's own id when `setId` is absent. -/
def newIdFor (env : Env) (setId : Option SetIdOpt) (idx : Nat)
    (lastId : Option String) (r : TableRow) : String :=
  match setId with
  | some SetIdOpt.random => env.gen idx
  | some SetIdOpt.decrement => decrementId lastId
  | none => r.ref.id

/-- The row actually passed to `_addSingleRowAndAudit`: when `setId` is set,
the `_rowy_ref` is overwritten with the new id and with the row's parent path
followed by the new id. -/
def reRef (setId : Option SetIdOpt) (r : TableRow) (id : String) : TableRow :=
  if setId.isSome then ⟨⟨id, parentPathOf r.ref.path ++ "/" ++ id⟩, r.data⟩ else r

/-- The array loop of `addRowAtom`: thread `lastId` through the rows (updated
at every element), fan the single-row procedure out over the re-referenced
rows. -/
def addRowLoop (env : Env) (ts : TableSettings) (user : Value) (ignore : Bool)
    (setId : Option SetIdOpt) :
    Option String → Nat → List TableRow → List Effect
  | _, _, [] => []
  | lastId, idx, r :: rs =>
    let id := newIdFor env setId idx lastId r
    addSingleRowAndAudit env ts user ignore setId (reRef setId r id)
      ++ addRowLoop env ts user ignore setId (some id) (idx + 1) rs

/-- The `addRowAtom` set function: precondition checks, then the single-row procedure or the
array loop starting the id chain at the first database row's id. -/
def addRow (env : Env) (opts : AddRowOptions) : Except String (List Effect) :=
  if ¬ env.updateRowDb then Except.error "Cannot write to database"
  else match env.tableSettings with
  | none => Except.error "Cannot read table settings"
  | some ts =>
    match env.currentUser with
    | none => Except.error "Cannot read current user"
    | some user =>
      Except.ok (match opts.row with
        | Sum.inr rows =>
          addRowLoop env ts user opts.ignoreRequiredFields opts.setId
            (env.tableRowsDb.head?.map (fun r => r.ref.id)) 0 rows
        | Sum.inl r =>
          let id := newIdFor env opts.setId 0
            (env.tableRowsDb.head?.map (fun r => r.ref.id)) r
          addSingleRowAndAudit env ts user opts.ignoreRequiredFields opts.setId
            (reRef opts.setId r id))

/-! ## deleteRowAtom -/

/-- The body of `_deleteSingleRowAndAudit` in `deleteRowAtom`: delete from
`tableRowsLocalAtom` when a local row with this path exists (against the
snapshot read at entry), otherwise call the remote delete; audit either way
when configured. -/
def deleteSingleRowAndAudit (env : Env) (path : String) : List Effect :=
  let isLocalRow := (env.tableRowsLocal.find? (fun r => r.ref.path = path)).isSome
  (if isLocalRow then [Effect.localDelete path] else [Effect.dbDelete path])
    ++ (if env.auditChange then [Effect.audit "DELETE_ROW" path none] else [])

/-- The `deleteRowAtom` set function: throws when the remote delete function is unset, then
fans out over the given path(s). -/
def deleteRow (env : Env) (path : String ⊕ List String) :
    Except String (List Effect) :=
  if ¬ env.deleteRowDb then Except.error "Cannot write to database"
  else Except.ok (match path with
    | Sum.inl p => deleteSingleRowAndAudit env p
    | Sum.inr ps => ps.flatMap (deleteSingleRowAndAudit env))

/-! ## bulkAddRowsAtom -/

/-- The `IBulkAddRowsOptions` argument (the `onBatchCommit` callback is passed through to
the bulk write function and not modelled). -/
structure BulkAddRowsOptions where
  rows : List TableRow
  collection : String

/-- The `initialValues` object composed by `bulkAddRowsAtom`: column defaults
then audit fields. -/
def bulkInitialValues (ts : TableSettings) (user : Value) (cols : List Column) :
    Fields :=
  applyAuditFieldsCreate ts user (applyColumnDefaults [] cols)

/-- The operations `bulkAddRowsAtom` sends to the bulk write function: one
`"add"` per row, at `collection/<generated id>`, with the initial values
overridden by the row's fields stripped of rowy-internal fields. -/
def bulkOperations (env : Env) (ts : TableSettings) (user : Value)
    (rows : List TableRow) (collection : String) : List BulkOperation :=
  let initialValues := bulkInitialValues ts user env.tableColumnsOrdered
  rows.enum.map (fun p =>
    BulkOperation.mk "add" (collection ++ "/" ++ env.gen p.1)
      (mergeFields initialValues (omitRowyFields p.2)))

/-- The `bulkAddRowsAtom` set function: precondition checks, one bulk write, then one
`"ADD_ROW"` audit per operation when configured. -/
def bulkAddRows (env : Env) (opts : BulkAddRowsOptions) :
    Except String (List Effect) :=
  if ¬ env.bulkWriteDb then Except.error "Cannot write to database"
  else match env.tableSettings with
  | none => Except.error "Cannot read table settings"
  | some ts =>
    match env.currentUser with
    | none => Except.error "Cannot read current user"
    | some user =>
      let operations := bulkOperations env ts user opts.rows opts.collection
      Except.ok ([Effect.dbBulk operations]
        ++ (if env.auditChange then
              operations.map (fun op => Effect.audit "ADD_ROW" op.path none)
            else []))

/-! ## updateFieldAtom -/

/-- Lodash dot notation: split a field name into its path segments. -/
def splitPath (fieldName : String) : List String :=
  splitOnChar '.' fieldName

/-- Lodash `_.get` descent below the first segment: follow object fields,
`undefined` as soon as a non-object is entered. -/
def getPathV : Value → List String → Value
  | v, [] => v
  | Value.obj fields, k :: rest => getPathV (getField fields k) rest
  | _, _ :: _ => Value.undef

/-- Lodash `_.get(row, fieldName)` on a table row (deep structural equality
models lodash `isEqual`). -/
def lodashGet (row : TableRow) (fieldName : String) : Value :=
  match splitPath fieldName with
  | [] => Value.undef
  | k :: rest => getPathV (getField row.data k) rest

/-- Lodash `_.set` on an object: descend along the path, creating or
replacing intermediate objects. -/
def setPathFields (fields : Fields) : List String → Value → Fields
  | [], _ => fields
  | [k], nv => setField fields k nv
  | k :: k' :: rest, nv =>
    let childFields := match getField fields k with
      | Value.obj fs => fs
      | _ => []
    setField fields k (Value.obj (setPathFields childFields (k' :: rest) nv))

/-- Lodash `unset` on an object: remove the field at the path when its parent
exists. -/
def unsetPathFields (fields : Fields) : List String → Fields
  | [] => fields
  | [k] => fields.filter (fun p => p.1 ≠ k)
  | k :: k' :: rest =>
    match getField fields k with
    | Value.obj fs => setField fields k (Value.obj (unsetPathFields fs (k' :: rest)))
    | _ => fields

/-- Modelled from the spec: `updateRowData` (from `@src/utils/table`, not in
the sources) applies an update object to a row's data by deep merge. -/
def updateRowData (row update : Fields) : Fields :=
  update.foldl
    (fun acc p =>
      let merged := match getField acc p.1, p.2 with
        | Value.obj af, Value.obj vf => Value.obj (mergeFields af vf)
        | _, v => v
      setField acc p.1 merged)
    row

/-- The `IUpdateFieldOptions` argument (absent booleans are falsy, modelled as `false`). -/
structure UpdateFieldOptions where
  path : String
  fieldName : String
  value : Value
  deleteField : Bool
  ignoreRequiredFields : Bool
  disableCheckEquality : Bool

/-- The `update` object composed by `updateFieldAtom` before the field update
is applied: the updated-by audit field when `tableSettings.audit !== false`,
nothing otherwise. -/
def updateFieldAuditUpdate (ts : TableSettings) (user : Value) : Fields :=
  if ts.audit ≠ some false then
    setField [] (strOrDefault ts.auditFieldUpdatedBy "_updatedBy") (rowyUser user)
  else []

/-- The `updateFieldAtom` set function: precondition checks, row lookup, equality short
circuit, then either a local update (plus a full-row database write when no
required field is missing) or a single-field database write, and an audit
entry when configured. -/
def updateField (env : Env) (o : UpdateFieldOptions) :
    Except String (List Effect) :=
  if ¬ env.updateRowDb then Except.error "Cannot write to database"
  else match env.tableSettings with
  | none => Except.error "Cannot read table settings"
  | some ts =>
    match env.currentUser with
    | none => Except.error "Cannot read current user"
    | some user =>
      match env.tableRows.find? (fun r => r.ref.path = o.path) with
      | none => Except.error "Could not find row"
      | some row =>
        let isLocalRow :=
          (env.tableRowsLocal.find? (fun r => r.ref.path = o.path)).isSome
        let update0 := updateFieldAuditUpdate ts user
        let missing :=
          missingRequiredFields o.ignoreRequiredFields env.tableColumnsOrdered row
        if ¬ o.deleteField ∧ ¬ o.disableCheckEquality ∧
            lodashGet row o.fieldName = o.value then
          Except.ok []
        else
          let update :=
            if ¬ o.deleteField then setPathFields update0 (splitPath o.fieldName) o.value
            else update0
          let deleteFields := if o.deleteField then [o.fieldName] else []
          Except.ok
            ((if isLocalRow then
                [Effect.localUpdate o.path update deleteFields]
                  ++ (if missing = [] then
                        let rowValues := updateRowData row.data update
                        let rowValues' :=
                          if o.deleteField then
                            unsetPathFields rowValues (splitPath o.fieldName)
                          else rowValues
                        [Effect.dbUpdate row.ref.path (omitRowyFieldsData rowValues')
                          deleteFields]
                      else [])
              else
                [Effect.dbUpdate row.ref.path (omitRowyFieldsData update) deleteFields])
              ++ (if env.auditChange then
                    [Effect.audit "UPDATE_CELL" o.path (some o.fieldName)]
                  else []))

/-! ## Filters component -/

/-- A `filters` config value as read from a document: absent (`none`),
explicitly `null` (`some none`), or an array (`some (some l)`). -/
abbrev FiltersConfig := Option (Option (List TableFilter))

/-- JS `Array.isArray(f) && f.length > 0`. -/
def hasFiltersIn : FiltersConfig → Bool
  | some (some l) => decide (l ≠ [])
  | _ => false

/-- The filter precedence of the `Filters` component's effect: an ADMIN with
non-empty user filters or user filters explicitly set to `null` applies the
user filters (`?? []`); otherwise non-empty table filters; otherwise
non-empty user filters; otherwise the empty list. -/
def isAdminRoles (roles : Option (List String)) : Bool :=
  match roles with
  | some rs => decide ("ADMIN" ∈ rs)
  | none => false

def filtersToApply (roles : Option (List String))
    (userFilters tableFilters : FiltersConfig) : List TableFilter :=
  if isAdminRoles roles && (hasFiltersIn userFilters || decide (userFilters = some none)) then
    match userFilters with
    | some (some l) => l
    | _ => []
  else if hasFiltersIn tableFilters then
    match tableFilters with
    | some (some l) => l
    | _ => []
  else if hasFiltersIn userFilters then
    match userFilters with
    | some (some l) => l
    | _ => []
  else []

/-- An observable action of the filter effect: applying a filter list to the
table, or resetting the table ordering. -/
inductive FilterEffect where
  | applyFilters : List TableFilter → FilterEffect
  | resetOrder : FilterEffect
deriving Repr, DecidableEq

/-- The `useEffect` body of the `Filters` component (its table-actions
dispatches): nothing when `tableActions` is unset, otherwise apply the
selected filters then reset the ordering. -/
def filtersEffect (hasTableActions : Bool) (roles : Option (List String))
    (userFilters tableFilters : FiltersConfig) : List FilterEffect :=
  if ¬ hasTableActions then []
  else [FilterEffect.applyFilters (filtersToApply roles userFilters tableFilters),
        FilterEffect.resetOrder]

/-! ## Trace classifiers and basic lemmas -/

/-- The remote-database update calls of a trace. -/
def dbUpdatesOf (tr : List Effect) : List Effect :=
  tr.filter (fun e => match e with
    | Effect.dbUpdate _ _ _ => true
    | _ => false)

/-- The local-rows additions of a trace. -/
def localAddsOf (tr : List Effect) : List Effect :=
  tr.filter (fun e => match e with
    | Effect.localAdd _ => true
    | _ => false)

/-- The audit-log calls of a trace. -/
def auditsOf (tr : List Effect) : List Effect :=
  tr.filter (fun e => match e with
    | Effect.audit _ _ _ => true
    | _ => false)

/-- The local-rows operations of a trace (adds, deletes and updates of
`tableRowsLocalAtom`). -/
def localOpsOf (tr : List Effect) : List Effect :=
  tr.filter (fun e => match e with
    | Effect.localAdd _ => true
    | Effect.localDelete _ => true
    | Effect.localUpdate _ _ _ => true
    | _ => false)

/-- The remote-store operations of a trace (updates, deletes and bulk
writes). -/
def remoteOpsOf (tr : List Effect) : List Effect :=
  tr.filter (fun e => match e with
    | Effect.dbUpdate _ _ _ => true
    | Effect.dbDelete _ => true
    | Effect.dbBulk _ => true
    | _ => false)

/-- A concrete environment for exercising the delete path split: one local
row at `"c/a"`, nothing else special. -/
def envDelete : Env where
  updateRowDb := true
  deleteRowDb := true
  bulkWriteDb := true
  tableSettings := some ⟨none, none, none⟩
  currentUser := some (Value.str "u")
  auditChange := true
  tableFilters := []
  tableColumnsOrdered := []
  tableRowsDb := []
  tableRows := [⟨⟨"a", "c/a"⟩, []⟩]
  tableRowsLocal := [⟨⟨"a", "c/a"⟩, []⟩]
  gen := fun _ => "g"
/-- A concrete environment in which `updateFieldAtom` is invoked with a value
equal to the row's current value: audit configured, one row at `"c/1"` with
field `"a"` holding `1`. -/
def envEqualSkip : Env where
  updateRowDb := true
  deleteRowDb := true
  bulkWriteDb := true
  tableSettings := some ⟨none, none, none⟩
  currentUser := some (Value.str "u")
  auditChange := true
  tableFilters := []
  tableColumnsOrdered := []
  tableRowsDb := []
  tableRows := [⟨⟨"1", "c/1"⟩, [("a", Value.num 1)]⟩]
  tableRowsLocal := []
  gen := fun _ => "g"
/-- A small concrete environment and bulk-add argument for the operation
shape. -/
def bulkWitnessRow : TableRow := ⟨⟨"x", "c/x"⟩, [("name", Value.str "n")]⟩
/-- The per-row references `addRowAtom` computes for an array argument,
precomputed as a list before any row is processed: the id chain threaded
through `newIdFor` and the `setId` ref rewrite. -/
def addRowIdChain (env : Env) (setId : Option SetIdOpt) :
    Option String → Nat → List TableRow → List TableRow
  | _, _, [] => []
  | lastId, idx, r :: rs =>
    let id := newIdFor env setId idx lastId r
    reRef setId r id :: addRowIdChain env setId (some id) (idx + 1) rs
/-- The pure decrement chain: each id is the decrement of the previous one. -/
def decrementChain : Option String → Nat → List String
  | _, 0 => []
  | lastId, n + 1 =>
    let id := decrementId lastId
    id :: decrementChain (some id) n
/-- An environment with no database functions, no table settings and no
current user. -/
def envNoDb : Env where
  updateRowDb := false
  deleteRowDb := false
  bulkWriteDb := false
  tableSettings := none
  currentUser := none
  auditChange := false
  tableFilters := []
  tableColumnsOrdered := []
  tableRowsDb := []
  tableRows := []
  tableRowsLocal := []
  gen := fun _ => "g"
/-- An environment whose database functions are set but whose table settings
are unset. -/
def envNoSettings : Env where
  updateRowDb := true
  deleteRowDb := true
  bulkWriteDb := true
  tableSettings := none
  currentUser := some (Value.str "u")
  auditChange := false
  tableFilters := []
  tableColumnsOrdered := []
  tableRowsDb := []
  tableRows := []
  tableRowsLocal := []
  gen := fun _ => "g"
/-- An environment whose database functions and table settings are set but
whose current user is unset. -/
def envNoUser : Env where
  updateRowDb := true
  deleteRowDb := true
  bulkWriteDb := true
  tableSettings := some ⟨none, none, none⟩
  currentUser := none
  auditChange := false
  tableFilters := []
  tableColumnsOrdered := []
  tableRowsDb := []
  tableRows := []
  tableRowsLocal := []
  gen := fun _ => "g"

theorem getField_setField_self (d : Fields) (k : String) (v : Value) :
    getField (setField d k v) k = v := by
  induction d with
  | nil => simp [setField, getField, List.find?]
  | cons p rest ih =>
    obtain ⟨k', v'⟩ := p
    by_cases h : k' = k
    · simp [setField, h, getField, List.find?]
    · simp only [setField, if_neg h]
      simpa [getField, List.find?, h] using ih

theorem getField_setField_ne (d : Fields) (k k' : String) (v : Value)
    (h : k' ≠ k) : getField (setField d k' v) k = getField d k := by
  induction d with
  | nil => simp [setField, getField, List.find?, h]
  | cons p rest ih =>
    obtain ⟨k1, v1⟩ := p
    by_cases h1 : k1 = k'
    · subst h1
      simp [setField, getField, List.find?, h]
    · simp only [setField, if_neg h1]
      by_cases h2 : k1 = k
      · simp [getField, List.find?, h2]
      · simpa [getField, List.find?, h2] using ih

theorem missingRequiredFields_eq_nil (ignore : Bool) (cols : List Column)
    (row : TableRow) :
    missingRequiredFields ignore cols row = [] ↔
      (ignore = true ∨
        ∀ c ∈ cols, c.required = true → getField row.data c.key ≠ Value.undef) := by
  cases ignore with
  | true => simp [missingRequiredFields]
  | false =>
    simp only [missingRequiredFields, Bool.false_eq_true, if_false,
      List.filter_eq_nil_iff]
    constructor
    · intro h
      refine Or.inr (fun c hc hreq => ?_)
      have := h c.key (by
        simp only [requiredFieldsOf, List.mem_map, List.mem_filter]
        exact ⟨c, ⟨hc, hreq⟩, rfl⟩)
      simpa using this
    · rintro (h | h)
      · cases h
      · intro k hk
        simp only [requiredFieldsOf, List.mem_map, List.mem_filter] at hk
        obtain ⟨c, ⟨hc, hreq⟩, rfl⟩ := hk
        simpa using h c hc hreq

theorem dbUpdatesOf_addSingleRowAndAudit (env : Env) (ts : TableSettings)
    (user : Value) (ignore : Bool) (setId : Option SetIdOpt) (row : TableRow) :
    dbUpdatesOf (addSingleRowAndAudit env ts user ignore setId row) =
      if missingRequiredFields ignore env.tableColumnsOrdered row = [] then
        [Effect.dbUpdate row.ref.path
          (omitRowyFields
            ⟨row.ref,
             mergeFields (addRowInitialValues ts user env.tableFilters env.tableColumnsOrdered)
               row.data⟩) []]
      else [] := by
  unfold addSingleRowAndAudit dbUpdatesOf addRowInitialValues
  simp only [List.filter_append, apply_ite (List.filter _)]
  by_cases h : missingRequiredFields ignore env.tableColumnsOrdered row = [] <;>
    simp [h, List.filter]

/-- C1: for every row processed by `addRowAtom` (each processed row goes
through `addSingleRowAndAudit`, with `setId`-rewritten ref where applicable),
the remote write — `updateRowDb` with the row's path and its merged values
stripped of rowy-internal fields — is performed if and only if
`ignoreRequiredFields` is set or every column marked required has a value
other than `undefined` in the provided row; in particular with
`ignoreRequiredFields` true it is performed unconditionally. -/
theorem addRow_dbWrite_iff_required_fields (env : Env) (ts : TableSettings)
    (user : Value) (ignore : Bool) (setId : Option SetIdOpt) (row : TableRow) :
    dbUpdatesOf (addSingleRowAndAudit env ts user ignore setId row) =
      if ignore = true ∨
          ∀ c ∈ env.tableColumnsOrdered, c.required = true →
            getField row.data c.key ≠ Value.undef then
        [Effect.dbUpdate row.ref.path
          (omitRowyFields
            ⟨row.ref,
             mergeFields (addRowInitialValues ts user env.tableFilters env.tableColumnsOrdered)
               row.data⟩) []]
      else [] := by
  rw [dbUpdatesOf_addSingleRowAndAudit]
  by_cases h : missingRequiredFields ignore env.tableColumnsOrdered row = []
  · rw [if_pos h, if_pos ((missingRequiredFields_eq_nil _ _ _).mp h)]
  · rw [if_neg h, if_neg (fun hc => h ((missingRequiredFields_eq_nil _ _ _).mpr hc))]

theorem mem_setOfKeys_foldl (ks : List String) :
    ∀ (acc : List String) (x : String),
      x ∈ ks.foldl (fun acc k => if k ∈ acc then acc else acc ++ [k]) acc ↔
        x ∈ acc ∨ x ∈ ks := by
  induction ks with
  | nil => intro acc x; simp
  | cons k rest ih =>
    intro acc x
    simp only [List.foldl_cons]
    by_cases h : k ∈ acc
    · rw [if_pos h, ih]
      constructor
      · rintro (hx | hx)
        · exact Or.inl hx
        · exact Or.inr (List.mem_cons_of_mem _ hx)
      · rintro (hx | hx)
        · exact Or.inl hx
        · rcases List.mem_cons.mp hx with rfl | hx
          · exact Or.inl h
          · exact Or.inr hx
    · rw [if_neg h, ih]
      simp only [List.mem_append, List.mem_singleton, List.mem_cons]
      tauto

theorem mem_setOfKeys (ks : List String) (x : String) :
    x ∈ setOfKeys ks ↔ x ∈ ks := by
  rw [setOfKeys, mem_setOfKeys_foldl]
  simp

theorem nodup_setOfKeys_foldl (ks : List String) :
    ∀ (acc : List String), acc.Nodup →
      (ks.foldl (fun acc k => if k ∈ acc then acc else acc ++ [k]) acc).Nodup := by
  induction ks with
  | nil => intro acc h; simpa using h
  | cons k rest ih =>
    intro acc h
    simp only [List.foldl_cons]
    by_cases hk : k ∈ acc
    · rw [if_pos hk]; exact ih acc h
    · rw [if_neg hk]
      refine ih _ ?_
      simpa [List.nodup_append, h] using hk

theorem nodup_setOfKeys (ks : List String) : (setOfKeys ks).Nodup :=
  nodup_setOfKeys_foldl ks [] List.nodup_nil

theorem filter_ne_nil_iff_exists {α : Type} (p : α → Bool) (l : List α) :
    l.filter p ≠ [] ↔ ∃ a ∈ l, p a = true := by
  rw [Ne, List.filter_eq_nil_iff]
  push_neg
  simp

theorem foldl_addRowFilterStep_snd (filters : List TableFilter) :
    ∀ (d : Fields) (ks : List String), ks.Nodup →
      (filters.foldl addRowFilterStep (d, ks)).2 =
        ks.filter (fun k =>
          decide (∀ g ∈ filters, g.key = k →
            ¬(g.operator = "==" ∨ g.operator = "array-contains"))) := by
  induction filters with
  | nil =>
    intro d ks _
    simp
  | cons f fs ih =>
    intro d ks hks
    simp only [List.foldl_cons]
    by_cases h1 : f.operator = "=="
    · rw [show addRowFilterStep (d, ks) f =
          (setField d f.key f.value, ks.erase f.key) by
            simp [addRowFilterStep, h1]]
      rw [ih _ _ (hks.erase f.key), hks.erase_eq_filter f.key,
        List.filter_filter]
      refine List.filter_congr (fun k _ => ?_)
      by_cases hk : k = f.key
      · have hkb : (k != f.key) = false := by simp [hk]
        rw [hkb, Bool.and_false]
        symm
        rw [decide_eq_false_iff_not]
        intro hall
        exact hall f (List.mem_cons_self _ _) hk.symm (Or.inl h1)
      · have hkb : (k != f.key) = true := by simp [hk]
        rw [hkb, Bool.and_true, decide_eq_decide]
        constructor
        · intro h g hg hkey
          rcases List.mem_cons.mp hg with rfl | hg
          · exact absurd hkey.symm hk
          · exact h g hg hkey
        · intro h g hg hkey
          exact h g (List.mem_cons_of_mem _ hg) hkey
    · by_cases h2 : f.operator = "array-contains"
      · rw [show addRowFilterStep (d, ks) f =
            (setField d f.key (Value.arr [f.value]), ks.erase f.key) by
              simp [addRowFilterStep, h1, h2]]
        rw [ih _ _ (hks.erase f.key), hks.erase_eq_filter f.key,
          List.filter_filter]
        refine List.filter_congr (fun k _ => ?_)
        by_cases hk : k = f.key
        · have hkb : (k != f.key) = false := by simp [hk]
          rw [hkb, Bool.and_false]
          symm
          rw [decide_eq_false_iff_not]
          intro hall
          exact hall f (List.mem_cons_self _ _) hk.symm (Or.inr h2)
        · have hkb : (k != f.key) = true := by simp [hk]
          rw [hkb, Bool.and_true, decide_eq_decide]
          constructor
          · intro h g hg hkey
            rcases List.mem_cons.mp hg with rfl | hg
            · exact absurd hkey.symm hk
            · exact h g hg hkey
          · intro h g hg hkey
            exact h g (List.mem_cons_of_mem _ hg) hkey
      · rw [show addRowFilterStep (d, ks) f = (d, ks) by
            simp [addRowFilterStep, h1, h2]]
        rw [ih _ _ hks]
        refine List.filter_congr (fun k _ => ?_)
        rw [decide_eq_decide]
        constructor
        · intro h g hg hkey
          rcases List.mem_cons.mp hg with rfl | hg
          · rintro (hop | hop)
            · exact h1 hop
            · exact h2 hop
          · exact h g hg hkey
        · intro h g hg hkey
          exact h g (List.mem_cons_of_mem _ hg) hkey

/-- The residual `outOfOrderFilters` set is non-empty exactly when some
filter's key is assigned no initial value: no filter with that key has
operator `"=="` or `"array-contains"`. -/
theorem addRowFilterData_snd_ne_nil (filters : List TableFilter) :
    (addRowFilterData filters).2 ≠ [] ↔
      ∃ f ∈ filters, ∀ g ∈ filters, g.key = f.key →
        g.operator ≠ "==" ∧ g.operator ≠ "array-contains" := by
  rw [addRowFilterData,
    foldl_addRowFilterStep_snd filters [] _ (nodup_setOfKeys _),
    filter_ne_nil_iff_exists]
  constructor
  · rintro ⟨k, hk, hp⟩
    rw [decide_eq_true_eq] at hp
    rw [mem_setOfKeys, List.mem_map] at hk
    obtain ⟨f, hf, rfl⟩ := hk
    exact ⟨f, hf, fun g hg hkey => not_or.mp (hp g hg hkey)⟩
  · rintro ⟨f, hf, hall⟩
    exact ⟨f.key, (mem_setOfKeys _ _).mpr (List.mem_map.mpr ⟨f, hf, rfl⟩),
      decide_eq_true (fun g hg hkey => not_or.mpr (hall g hg hkey))⟩

theorem localAddsOf_addSingleRowAndAudit (env : Env) (ts : TableSettings)
    (user : Value) (ignore : Bool) (setId : Option SetIdOpt) (row : TableRow) :
    localAddsOf (addSingleRowAndAudit env ts user ignore setId row) =
      if missingRequiredFields ignore env.tableColumnsOrdered row ≠ [] ∨
          (decide (getField row.data "_rowy_outOfOrder" = Value.bool true) ||
           decide ((addRowFilterData env.tableFilters).2 ≠ []) ||
           decide (setId ≠ some SetIdOpt.decrement)) = true then
        [Effect.localAdd
          ⟨row.ref,
           setField
             (mergeFields (addRowInitialValues ts user env.tableFilters env.tableColumnsOrdered)
               row.data)
             "_rowy_outOfOrder"
             (Value.bool
               (decide (getField row.data "_rowy_outOfOrder" = Value.bool true) ||
                decide ((addRowFilterData env.tableFilters).2 ≠ []) ||
                decide (setId ≠ some SetIdOpt.decrement)))⟩]
      else [] := by
  unfold addSingleRowAndAudit localAddsOf addRowInitialValues
  simp only [List.filter_append, apply_ite (List.filter _)]
  by_cases h : missingRequiredFields ignore env.tableColumnsOrdered row ≠ [] ∨
      (decide (getField row.data "_rowy_outOfOrder" = Value.bool true) ||
       decide ((addRowFilterData env.tableFilters).2 ≠ []) ||
       decide (setId ≠ some SetIdOpt.decrement)) = true <;>
    by_cases h2 : missingRequiredFields ignore env.tableColumnsOrdered row = [] <;>
    simp [h, h2, List.filter]

/-- C2: for every row processed by `addRowAtom`, the row is added to the
local rows state exactly when at least one required field is missing, the row
has `_rowy_outOfOrder === true`, some active table filter's key could be
given no matching initial value (no filter with that key has operator `"=="`
or `"array-contains"`), or `setId` is not `"decrement"`; the stored row
carries `_rowy_outOfOrder` true exactly under the last three of those
conditions — so a row stored only for missing required fields, with `setId`
`"decrement"`, carries `_rowy_outOfOrder` false. -/
theorem addRow_localAdd_out_of_order_conditions (env : Env) (ts : TableSettings)
    (user : Value) (ignore : Bool) (setId : Option SetIdOpt) (row : TableRow) :
    localAddsOf (addSingleRowAndAudit env ts user ignore setId row) =
      if (ignore = false ∧
            ∃ c ∈ env.tableColumnsOrdered, c.required = true ∧
              getField row.data c.key = Value.undef) ∨
          getField row.data "_rowy_outOfOrder" = Value.bool true ∨
          (∃ f ∈ env.tableFilters, ∀ g ∈ env.tableFilters, g.key = f.key →
            g.operator ≠ "==" ∧ g.operator ≠ "array-contains") ∨
          setId ≠ some SetIdOpt.decrement then
        [Effect.localAdd
          ⟨row.ref,
           setField
             (mergeFields (addRowInitialValues ts user env.tableFilters env.tableColumnsOrdered)
               row.data)
             "_rowy_outOfOrder"
             (Value.bool
               (decide (getField row.data "_rowy_outOfOrder" = Value.bool true ∨
                 (∃ f ∈ env.tableFilters, ∀ g ∈ env.tableFilters, g.key = f.key →
                   g.operator ≠ "==" ∧ g.operator ≠ "array-contains") ∨
                 setId ≠ some SetIdOpt.decrement)))⟩]
      else [] := by
  have hmiss : missingRequiredFields ignore env.tableColumnsOrdered row ≠ [] ↔
      (ignore = false ∧
        ∃ c ∈ env.tableColumnsOrdered, c.required = true ∧
          getField row.data c.key = Value.undef) := by
    rw [Ne, missingRequiredFields_eq_nil, not_or]
    simp only [Bool.not_eq_true, not_forall, Classical.not_imp, not_not, ne_eq,
      exists_prop]
  have hfilt := addRowFilterData_snd_ne_nil env.tableFilters
  have hbool : (decide (getField row.data "_rowy_outOfOrder" = Value.bool true) ||
      decide ((addRowFilterData env.tableFilters).2 ≠ []) ||
      decide (setId ≠ some SetIdOpt.decrement)) =
      decide (getField row.data "_rowy_outOfOrder" = Value.bool true ∨
        (∃ f ∈ env.tableFilters, ∀ g ∈ env.tableFilters, g.key = f.key →
          g.operator ≠ "==" ∧ g.operator ≠ "array-contains") ∨
        setId ≠ some SetIdOpt.decrement) := by
    simp only [← hfilt]
    by_cases h1 : getField row.data "_rowy_outOfOrder" = Value.bool true <;>
      by_cases h2 : (addRowFilterData env.tableFilters).2 ≠ [] <;>
      by_cases h3 : setId ≠ some SetIdOpt.decrement <;>
      simp [h1, h2, h3]
  rw [localAddsOf_addSingleRowAndAudit env ts user ignore setId row, hbool]
  refine if_congr ?_ rfl rfl
  rw [decide_eq_true_eq]
  exact or_congr hmiss Iff.rfl

/-- C4: for every path deleted via `deleteRowAtom`, when a row with that path
exists in the local rows state the delete touches only the local rows (no
remote-store operation at all); otherwise the remote delete is invoked for
the path and the local rows state is untouched. -/
theorem deleteRow_local_only_or_remote_only (env : Env) (path : String) :
    ((∃ r ∈ env.tableRowsLocal, r.ref.path = path) →
       localOpsOf (deleteSingleRowAndAudit env path) = [Effect.localDelete path] ∧
       remoteOpsOf (deleteSingleRowAndAudit env path) = []) ∧
    ((¬ ∃ r ∈ env.tableRowsLocal, r.ref.path = path) →
       remoteOpsOf (deleteSingleRowAndAudit env path) = [Effect.dbDelete path] ∧
       localOpsOf (deleteSingleRowAndAudit env path) = []) := by
  have hiff : (List.find? (fun r => r.ref.path = path) env.tableRowsLocal).isSome =
      true ↔ ∃ r ∈ env.tableRowsLocal, r.ref.path = path := by
    rw [List.find?_isSome]
    simp
  constructor
  · intro h
    have hl := hiff.mpr h
    unfold deleteSingleRowAndAudit localOpsOf remoteOpsOf
    by_cases ha : env.auditChange <;> simp [hl, ha, List.filter]
  · intro h
    have hl : (List.find? (fun r => r.ref.path = path) env.tableRowsLocal).isSome =
        false := by
      rcases hb : (List.find? (fun r => r.ref.path = path) env.tableRowsLocal).isSome with _ | _
      · exact hb
      · exact absurd (hiff.mp hb) h
    unfold deleteSingleRowAndAudit localOpsOf remoteOpsOf
    by_cases ha : env.auditChange <;> simp [hl, ha, List.filter]

theorem deleteRow_local_only_or_remote_only_witness :
    localOpsOf (deleteSingleRowAndAudit envDelete "c/a") =
        [Effect.localDelete "c/a"] ∧
      remoteOpsOf (deleteSingleRowAndAudit envDelete "c/b") =
        [Effect.dbDelete "c/b"] := by
  refine ⟨((deleteRow_local_only_or_remote_only envDelete "c/a").1 ?_).1,
    ((deleteRow_local_only_or_remote_only envDelete "c/b").2 ?_).1⟩
  · exact ⟨⟨⟨"a", "c/a"⟩, []⟩, by simp [envDelete], rfl⟩
  · rintro ⟨r, hr, hp⟩
    simp only [envDelete, List.mem_singleton] at hr
    subst hr
    simp at hp

/-- C3 counterexample: an invocation of `updateFieldAtom` whose value equals
the current value returns with an empty effect trace — no `"UPDATE_CELL"`
audit entry is recorded even though an audit change function is configured,
so `updateFieldAtom` does not audit every invocation. -/
theorem updateField_equality_skip_records_no_audit :
    envEqualSkip.auditChange = true ∧
      updateField envEqualSkip
        ⟨"c/1", "a", Value.num 1, false, false, false⟩ = Except.ok [] := by
  exact ⟨rfl, rfl⟩

/-- C3 (amended): whenever an audit change function is configured, every row
processed by `addRowAtom` records exactly one `"ADD_ROW"` entry with the
row's path, every path processed by `deleteRowAtom` records exactly one
`"DELETE_ROW"` entry, and every invocation of `updateFieldAtom` that neither
throws nor returns early through the value-equality check records exactly one
`"UPDATE_CELL"` entry with the path and updated field name. -/
theorem mutation_atoms_audit_trail (env : Env) (ts : TableSettings)
    (user : Value) (ignore : Bool) (setId : Option SetIdOpt) (row : TableRow)
    (path : String) (o : UpdateFieldOptions) (row' : TableRow)
    (hAudit : env.auditChange = true)
    (hdb : env.updateRowDb = true)
    (hts : env.tableSettings = some ts)
    (huser : env.currentUser = some user)
    (hfind : List.find? (fun r => r.ref.path = o.path) env.tableRows = some row')
    (hnoskip : ¬(o.deleteField = false ∧ o.disableCheckEquality = false ∧
      lodashGet row' o.fieldName = o.value)) :
    auditsOf (addSingleRowAndAudit env ts user ignore setId row) =
        [Effect.audit "ADD_ROW" row.ref.path none] ∧
      auditsOf (deleteSingleRowAndAudit env path) =
        [Effect.audit "DELETE_ROW" path none] ∧
      ∃ tr, updateField env o = Except.ok tr ∧
        auditsOf tr = [Effect.audit "UPDATE_CELL" o.path (some o.fieldName)] := by
  refine ⟨?_, ?_, ?_⟩
  · unfold addSingleRowAndAudit auditsOf
    by_cases h1 : missingRequiredFields ignore env.tableColumnsOrdered row = [] <;>
      by_cases h2 : missingRequiredFields ignore env.tableColumnsOrdered row ≠ [] ∨
        (decide (getField row.data "_rowy_outOfOrder" = Value.bool true) ||
         decide ((addRowFilterData env.tableFilters).2 ≠ []) ||
         decide (setId ≠ some SetIdOpt.decrement)) = true <;>
      simp [h1, h2, hAudit, List.filter, List.filter_append]
  · unfold deleteSingleRowAndAudit auditsOf
    by_cases h1 : (List.find? (fun r => r.ref.path = path) env.tableRowsLocal).isSome <;>
      simp [h1, hAudit, List.filter, List.filter_append]
  · unfold updateField
    rw [hts, huser, hfind]
    have hskip : ¬(¬o.deleteField = true ∧ ¬o.disableCheckEquality = true ∧
        lodashGet row' o.fieldName = o.value) := by
      simpa [Bool.not_eq_true] using hnoskip
    rw [if_neg (by simp [hdb])]
    simp only []
    rw [if_neg hskip]
    refine ⟨_, rfl, ?_⟩
    unfold auditsOf
    by_cases h1 : (List.find? (fun r => r.ref.path = o.path) env.tableRowsLocal).isSome <;>
      by_cases h2 : missingRequiredFields o.ignoreRequiredFields env.tableColumnsOrdered row' = [] <;>
      simp [h1, h2, hAudit, List.filter, List.filter_append]

theorem mutation_atoms_audit_trail_witness :
    auditsOf (addSingleRowAndAudit envEqualSkip ⟨none, none, none⟩ (Value.str "u")
        false none ⟨⟨"r", "c/r"⟩, []⟩) = [Effect.audit "ADD_ROW" "c/r" none] ∧
      auditsOf (deleteSingleRowAndAudit envEqualSkip "c/9") =
        [Effect.audit "DELETE_ROW" "c/9" none] ∧
      ∃ tr, updateField envEqualSkip ⟨"c/1", "a", Value.num 2, false, false, false⟩ =
          Except.ok tr ∧
        auditsOf tr = [Effect.audit "UPDATE_CELL" "c/1" (some "a")] := by
  exact mutation_atoms_audit_trail envEqualSkip ⟨none, none, none⟩ (Value.str "u")
    false none ⟨⟨"r", "c/r"⟩, []⟩ "c/9" ⟨"c/1", "a", Value.num 2, false, false, false⟩
    ⟨⟨"1", "c/1"⟩, [("a", Value.num 1)]⟩ rfl rfl rfl rfl (by decide) (by decide)

theorem getField_setField_setField (d : Fields) (a b : String) (v : Value) :
    getField (setField (setField d a v) b v) a = v := by
  by_cases h : b = a
  · rw [h, getField_setField_self]
  · rw [getField_setField_ne _ _ _ _ h, getField_setField_self]

/-- C5: when table auditing is not explicitly disabled, the initial values
composed by `addRowAtom` and `bulkAddRowsAtom` hold `rowyUser(currentUser)`
under both configured audit field names (defaults `"_createdBy"`,
`"_updatedBy"`), and the update composed by `updateFieldAtom` holds it under
the updated-by name; when `audit === false` the audit block leaves the
composed objects exactly as built from filters and column defaults, writing
no audit field. -/
theorem audit_fields_written_iff_enabled (ts : TableSettings) (user : Value)
    (filters : List TableFilter) (cols : List Column) :
    (ts.audit ≠ some false →
      getField (addRowInitialValues ts user filters cols)
          (strOrDefault ts.auditFieldCreatedBy "_createdBy") = rowyUser user ∧
      getField (addRowInitialValues ts user filters cols)
          (strOrDefault ts.auditFieldUpdatedBy "_updatedBy") = rowyUser user ∧
      getField (bulkInitialValues ts user cols)
          (strOrDefault ts.auditFieldCreatedBy "_createdBy") = rowyUser user ∧
      getField (bulkInitialValues ts user cols)
          (strOrDefault ts.auditFieldUpdatedBy "_updatedBy") = rowyUser user ∧
      getField (updateFieldAuditUpdate ts user)
          (strOrDefault ts.auditFieldUpdatedBy "_updatedBy") = rowyUser user) ∧
    (ts.audit = some false →
      addRowInitialValues ts user filters cols =
          applyColumnDefaults (addRowFilterData filters).1 cols ∧
      bulkInitialValues ts user cols = applyColumnDefaults [] cols ∧
      updateFieldAuditUpdate ts user = []) := by
  constructor
  · intro haudit
    unfold addRowInitialValues bulkInitialValues updateFieldAuditUpdate
      applyAuditFieldsCreate
    rw [if_pos haudit, if_pos haudit, if_pos haudit]
    exact ⟨getField_setField_setField _ _ _ _, getField_setField_self _ _ _,
      getField_setField_setField _ _ _ _, getField_setField_self _ _ _,
      getField_setField_self _ _ _⟩
  · intro haudit
    unfold addRowInitialValues bulkInitialValues updateFieldAuditUpdate
      applyAuditFieldsCreate
    rw [if_neg (by simp [haudit]), if_neg (by simp [haudit]),
      if_neg (by simp [haudit])]
    exact ⟨rfl, rfl, rfl⟩

theorem audit_fields_written_iff_enabled_witness :
    getField (addRowInitialValues ⟨none, none, none⟩ (Value.str "u") [] [])
        "_createdBy" = rowyUser (Value.str "u") ∧
      updateFieldAuditUpdate ⟨some false, none, none⟩ (Value.str "u") = [] := by
  constructor
  · exact ((audit_fields_written_iff_enabled ⟨none, none, none⟩ (Value.str "u")
      [] []).1 (by decide)).1
  · exact ((audit_fields_written_iff_enabled ⟨some false, none, none⟩
      (Value.str "u") [] []).2 rfl).2.2

/-- C6: `bulkAddRowsAtom` produces exactly one `"add"` operation per provided
row, at the given collection followed by `"/"` and a freshly generated id,
with data equal to the column defaults and audit fields overridden by the
row's fields stripped of rowy-internal fields; the bulk write is followed by
exactly one `"ADD_ROW"` audit entry per operation with that operation's path
when an audit function is configured, and by none otherwise. -/
theorem bulkAddRows_one_add_per_row (env : Env) (ts : TableSettings)
    (user : Value) (opts : BulkAddRowsOptions)
    (hdb : env.bulkWriteDb = true)
    (hts : env.tableSettings = some ts)
    (huser : env.currentUser = some user) :
    ∃ ops : List BulkOperation,
      bulkAddRows env opts = Except.ok (Effect.dbBulk ops ::
        (if env.auditChange = true then
          ops.map (fun op => Effect.audit "ADD_ROW" op.path none)
        else [])) ∧
      ops.length = opts.rows.length ∧
      ∀ i (hi : i < opts.rows.length),
        ops[i]? = some (BulkOperation.mk "add" (opts.collection ++ "/" ++ env.gen i)
          (mergeFields (bulkInitialValues ts user env.tableColumnsOrdered)
            (omitRowyFields (opts.rows.get ⟨i, hi⟩)))) := by
  refine ⟨bulkOperations env ts user opts.rows opts.collection, ?_, ?_, ?_⟩
  · unfold bulkAddRows
    rw [if_neg (by simp [hdb]), hts, huser]
    rfl
  · simp [bulkOperations]
  · intro i hi
    unfold bulkOperations
    simp only [List.getElem?_map, List.getElem?_enum,
      List.getElem?_eq_getElem hi, Option.map_some']
    simp [List.get_eq_getElem]

theorem bulkAddRows_one_add_per_row_witness :
    ∃ ops : List BulkOperation,
      bulkAddRows envEqualSkip ⟨[bulkWitnessRow], "col"⟩ = Except.ok
        (Effect.dbBulk ops ::
          (if envEqualSkip.auditChange = true then
            ops.map (fun op => Effect.audit "ADD_ROW" op.path none)
          else [])) ∧
      ops.length = ([bulkWitnessRow] : List TableRow).length ∧
      ∀ i (hi : i < ([bulkWitnessRow] : List TableRow).length),
        ops[i]? = some (BulkOperation.mk "add" ("col" ++ "/" ++ envEqualSkip.gen i)
          (mergeFields
            (bulkInitialValues ⟨none, none, none⟩ (Value.str "u")
              envEqualSkip.tableColumnsOrdered)
            (omitRowyFields (([bulkWitnessRow] : List TableRow).get ⟨i, hi⟩)))) :=
  bulkAddRows_one_add_per_row envEqualSkip ⟨none, none, none⟩ (Value.str "u")
    ⟨[bulkWitnessRow], "col"⟩ rfl rfl rfl

theorem addRowLoop_eq_flatMap_idChain (env : Env) (ts : TableSettings)
    (user : Value) (ig : Bool) (setId : Option SetIdOpt) (rows : List TableRow) :
    ∀ (lastId : Option String) (idx : Nat),
      addRowLoop env ts user ig setId lastId idx rows =
        (addRowIdChain env setId lastId idx rows).flatMap
          (addSingleRowAndAudit env ts user ig setId) := by
  induction rows with
  | nil => intro lastId idx; rfl
  | cons r rs ih =>
    intro lastId idx
    simp only [addRowLoop, addRowIdChain, List.flatMap_cons, ih]

theorem addRowIdChain_decrement_ids (env : Env) (rows : List TableRow) :
    ∀ (lastId : Option String) (idx : Nat),
      (addRowIdChain env (some SetIdOpt.decrement) lastId idx rows).map
          (fun r => r.ref.id) =
        decrementChain lastId rows.length := by
  induction rows with
  | nil => intro lastId idx; rfl
  | cons r rs ih =>
    intro lastId idx
    simp only [addRowIdChain, newIdFor, List.map_cons, List.length_cons,
      decrementChain, reRef, Option.isSome_some, if_pos, ih]

/-- C7: an array argument to `deleteRowAtom` has the same effect trace as
applying the single-path delete-and-audit procedure to each element
independently; an array argument to `addRowAtom` has the same trace as
applying the single-row procedure to each element of the precomputed
re-referenced row list, whose only inter-element dependency is the id chain —
with `setId` `"decrement"`, each id is the decrement of the previous one,
starting from the first database row's id. -/
theorem array_arguments_fan_out (env : Env) (ts : TableSettings) (user : Value)
    (ig : Bool) (setId : Option SetIdOpt) (rows : List TableRow)
    (ps : List String)
    (hdel : env.deleteRowDb = true)
    (hupd : env.updateRowDb = true)
    (hts : env.tableSettings = some ts)
    (huser : env.currentUser = some user) :
    deleteRow env (Sum.inr ps) =
        Except.ok (ps.flatMap (deleteSingleRowAndAudit env)) ∧
      addRow env ⟨Sum.inr rows, ig, setId⟩ = Except.ok
        ((addRowIdChain env setId (env.tableRowsDb.head?.map (fun r => r.ref.id))
            0 rows).flatMap (addSingleRowAndAudit env ts user ig setId)) ∧
      (setId = some SetIdOpt.decrement →
        (addRowIdChain env setId (env.tableRowsDb.head?.map (fun r => r.ref.id))
            0 rows).map (fun r => r.ref.id) =
          decrementChain (env.tableRowsDb.head?.map (fun r => r.ref.id))
            rows.length) := by
  refine ⟨?_, ?_, ?_⟩
  · unfold deleteRow
    rw [if_neg (by simp [hdel])]
  · unfold addRow
    rw [if_neg (by simp [hupd]), hts, huser]
    simp only []
    rw [addRowLoop_eq_flatMap_idChain]
  · intro hdec
    subst hdec
    exact addRowIdChain_decrement_ids env rows _ _

theorem array_arguments_fan_out_witness :
    deleteRow envEqualSkip (Sum.inr ["c/1", "c/2"]) =
        Except.ok (["c/1", "c/2"].flatMap (deleteSingleRowAndAudit envEqualSkip)) ∧
      addRow envEqualSkip ⟨Sum.inr [bulkWitnessRow], false, some SetIdOpt.decrement⟩ =
        Except.ok
          ((addRowIdChain envEqualSkip (some SetIdOpt.decrement)
              (envEqualSkip.tableRowsDb.head?.map (fun r => r.ref.id)) 0
              [bulkWitnessRow]).flatMap
            (addSingleRowAndAudit envEqualSkip ⟨none, none, none⟩ (Value.str "u")
              false (some SetIdOpt.decrement))) ∧
      (some SetIdOpt.decrement = some SetIdOpt.decrement →
        (addRowIdChain envEqualSkip (some SetIdOpt.decrement)
            (envEqualSkip.tableRowsDb.head?.map (fun r => r.ref.id)) 0
            [bulkWitnessRow]).map (fun r => r.ref.id) =
          decrementChain (envEqualSkip.tableRowsDb.head?.map (fun r => r.ref.id))
            ([bulkWitnessRow] : List TableRow).length) :=
  array_arguments_fan_out envEqualSkip ⟨none, none, none⟩ (Value.str "u") false
    (some SetIdOpt.decrement) [bulkWitnessRow] ["c/1", "c/2"] rfl rfl rfl rfl

/-- C8: an invocation of `updateFieldAtom` with `deleteField` and
`disableCheckEquality` unset whose value is deeply equal to the row's current
value at the field name returns with an empty trace: no local rows
operation, no database write and no audit entry. -/
theorem updateField_skips_when_value_equal (env : Env) (ts : TableSettings)
    (user : Value) (o : UpdateFieldOptions) (row : TableRow)
    (hdb : env.updateRowDb = true)
    (hts : env.tableSettings = some ts)
    (huser : env.currentUser = some user)
    (hdel : o.deleteField = false)
    (hdis : o.disableCheckEquality = false)
    (hfind : List.find? (fun r => r.ref.path = o.path) env.tableRows = some row)
    (heq : lodashGet row o.fieldName = o.value) :
    updateField env o = Except.ok [] := by
  unfold updateField
  rw [if_neg (by simp [hdb]), hts, huser, hfind]
  simp only []
  rw [if_pos ⟨by simp [hdel], by simp [hdis], heq⟩]

theorem updateField_skips_when_value_equal_witness :
    updateField envEqualSkip ⟨"c/1", "a", Value.num 1, false, false, false⟩ =
      Except.ok [] :=
  updateField_skips_when_value_equal envEqualSkip ⟨none, none, none⟩
    (Value.str "u") ⟨"c/1", "a", Value.num 1, false, false, false⟩
    ⟨⟨"1", "c/1"⟩, [("a", Value.num 1)]⟩ rfl rfl rfl rfl rfl (by decide) (by decide)

/-- C9: each mutation atom throws — returning an error before any effect, so
with no local change, database write or audit entry — when a precondition
read fails: the relevant database function is unset, table settings are
unset, or the current user is unset; and `updateFieldAtom` throws
`"Could not find row"` when no row in the table matches the given path. -/
theorem mutation_atoms_throw_on_failed_precondition_reads (env : Env)
    (opts : AddRowOptions) (p : String ⊕ List String)
    (bo : BulkAddRowsOptions) (uo : UpdateFieldOptions) :
    (env.updateRowDb = false →
      addRow env opts = Except.error "Cannot write to database") ∧
    (env.updateRowDb = true → env.tableSettings = none →
      addRow env opts = Except.error "Cannot read table settings") ∧
    (env.updateRowDb = true → env.tableSettings ≠ none → env.currentUser = none →
      addRow env opts = Except.error "Cannot read current user") ∧
    (env.deleteRowDb = false →
      deleteRow env p = Except.error "Cannot write to database") ∧
    (env.bulkWriteDb = false →
      bulkAddRows env bo = Except.error "Cannot write to database") ∧
    (env.bulkWriteDb = true → env.tableSettings = none →
      bulkAddRows env bo = Except.error "Cannot read table settings") ∧
    (env.bulkWriteDb = true → env.tableSettings ≠ none → env.currentUser = none →
      bulkAddRows env bo = Except.error "Cannot read current user") ∧
    (env.updateRowDb = false →
      updateField env uo = Except.error "Cannot write to database") ∧
    (env.updateRowDb = true → env.tableSettings = none →
      updateField env uo = Except.error "Cannot read table settings") ∧
    (env.updateRowDb = true → env.tableSettings ≠ none → env.currentUser = none →
      updateField env uo = Except.error "Cannot read current user") ∧
    (env.updateRowDb = true → env.tableSettings ≠ none → env.currentUser ≠ none →
      List.find? (fun r => r.ref.path = uo.path) env.tableRows = none →
      updateField env uo = Except.error "Could not find row") := by
  refine ⟨?_, ?_, ?_, ?_, ?_, ?_, ?_, ?_, ?_, ?_, ?_⟩
  · intro h
    unfold addRow
    rw [if_pos (by simp [h])]
  · intro h hts
    unfold addRow
    rw [if_neg (by simp [h]), hts]
  · intro h hts huser
    obtain ⟨ts, hts'⟩ := Option.ne_none_iff_exists'.mp hts
    unfold addRow
    rw [if_neg (by simp [h]), hts', huser]
  · intro h
    unfold deleteRow
    rw [if_pos (by simp [h])]
  · intro h
    unfold bulkAddRows
    rw [if_pos (by simp [h])]
  · intro h hts
    unfold bulkAddRows
    rw [if_neg (by simp [h]), hts]
  · intro h hts huser
    obtain ⟨ts, hts'⟩ := Option.ne_none_iff_exists'.mp hts
    unfold bulkAddRows
    rw [if_neg (by simp [h]), hts', huser]
  · intro h
    unfold updateField
    rw [if_pos (by simp [h])]
  · intro h hts
    unfold updateField
    rw [if_neg (by simp [h]), hts]
  · intro h hts huser
    obtain ⟨ts, hts'⟩ := Option.ne_none_iff_exists'.mp hts
    unfold updateField
    rw [if_neg (by simp [h]), hts', huser]
  · intro h hts huser hfind
    obtain ⟨ts, hts'⟩ := Option.ne_none_iff_exists'.mp hts
    obtain ⟨user, huser'⟩ := Option.ne_none_iff_exists'.mp huser
    unfold updateField
    rw [if_neg (by simp [h]), hts', huser', hfind]

theorem mutation_atoms_throw_on_failed_precondition_reads_witness :
    addRow envNoDb ⟨Sum.inl bulkWitnessRow, false, none⟩ =
        Except.error "Cannot write to database" ∧
      addRow envNoSettings ⟨Sum.inl bulkWitnessRow, false, none⟩ =
        Except.error "Cannot read table settings" ∧
      addRow envNoUser ⟨Sum.inl bulkWitnessRow, false, none⟩ =
        Except.error "Cannot read current user" ∧
      deleteRow envNoDb (Sum.inl "c/1") =
        Except.error "Cannot write to database" ∧
      bulkAddRows envNoDb ⟨[], "col"⟩ =
        Except.error "Cannot write to database" ∧
      bulkAddRows envNoSettings ⟨[], "col"⟩ =
        Except.error "Cannot read table settings" ∧
      bulkAddRows envNoUser ⟨[], "col"⟩ =
        Except.error "Cannot read current user" ∧
      updateField envNoDb ⟨"c/1", "a", Value.null, false, false, false⟩ =
        Except.error "Cannot write to database" ∧
      updateField envNoSettings ⟨"c/1", "a", Value.null, false, false, false⟩ =
        Except.error "Cannot read table settings" ∧
      updateField envNoUser ⟨"c/1", "a", Value.null, false, false, false⟩ =
        Except.error "Cannot read current user" ∧
      updateField envEqualSkip ⟨"c/9", "a", Value.null, false, false, false⟩ =
        Except.error "Could not find row" := by
  refine ⟨?_, ?_, ?_, ?_, ?_, ?_, ?_, ?_, ?_, ?_, ?_⟩
  · exact (mutation_atoms_throw_on_failed_precondition_reads envNoDb
      ⟨Sum.inl bulkWitnessRow, false, none⟩ (Sum.inl "c/1") ⟨[], "col"⟩
      ⟨"c/1", "a", Value.null, false, false, false⟩).1 rfl
  · exact (mutation_atoms_throw_on_failed_precondition_reads envNoSettings
      ⟨Sum.inl bulkWitnessRow, false, none⟩ (Sum.inl "c/1") ⟨[], "col"⟩
      ⟨"c/1", "a", Value.null, false, false, false⟩).2.1 rfl rfl
  · exact (mutation_atoms_throw_on_failed_precondition_reads envNoUser
      ⟨Sum.inl bulkWitnessRow, false, none⟩ (Sum.inl "c/1") ⟨[], "col"⟩
      ⟨"c/1", "a", Value.null, false, false, false⟩).2.2.1 rfl (by decide) rfl
  · exact (mutation_atoms_throw_on_failed_precondition_reads envNoDb
      ⟨Sum.inl bulkWitnessRow, false, none⟩ (Sum.inl "c/1") ⟨[], "col"⟩
      ⟨"c/1", "a", Value.null, false, false, false⟩).2.2.2.1 rfl
  · exact (mutation_atoms_throw_on_failed_precondition_reads envNoDb
      ⟨Sum.inl bulkWitnessRow, false, none⟩ (Sum.inl "c/1") ⟨[], "col"⟩
      ⟨"c/1", "a", Value.null, false, false, false⟩).2.2.2.2.1 rfl
  · exact (mutation_atoms_throw_on_failed_precondition_reads envNoSettings
      ⟨Sum.inl bulkWitnessRow, false, none⟩ (Sum.inl "c/1") ⟨[], "col"⟩
      ⟨"c/1", "a", Value.null, false, false, false⟩).2.2.2.2.2.1 rfl rfl
  · exact (mutation_atoms_throw_on_failed_precondition_reads envNoUser
      ⟨Sum.inl bulkWitnessRow, false, none⟩ (Sum.inl "c/1") ⟨[], "col"⟩
      ⟨"c/1", "a", Value.null, false, false, false⟩).2.2.2.2.2.2.1 rfl (by decide) rfl
  · exact (mutation_atoms_throw_on_failed_precondition_reads envNoDb
      ⟨Sum.inl bulkWitnessRow, false, none⟩ (Sum.inl "c/1") ⟨[], "col"⟩
      ⟨"c/1", "a", Value.null, false, false, false⟩).2.2.2.2.2.2.2.1 rfl
  · exact (mutation_atoms_throw_on_failed_precondition_reads envNoSettings
      ⟨Sum.inl bulkWitnessRow, false, none⟩ (Sum.inl "c/1") ⟨[], "col"⟩
      ⟨"c/1", "a", Value.null, false, false, false⟩).2.2.2.2.2.2.2.2.1 rfl rfl
  · exact (mutation_atoms_throw_on_failed_precondition_reads envNoUser
      ⟨Sum.inl bulkWitnessRow, false, none⟩ (Sum.inl "c/1") ⟨[], "col"⟩
      ⟨"c/1", "a", Value.null, false, false, false⟩).2.2.2.2.2.2.2.2.2.1 rfl (by decide) rfl
  · exact (mutation_atoms_throw_on_failed_precondition_reads envEqualSkip
      ⟨Sum.inl bulkWitnessRow, false, none⟩ (Sum.inl "c/1") ⟨[], "col"⟩
      ⟨"c/9", "a", Value.null, false, false, false⟩).2.2.2.2.2.2.2.2.2.2 rfl
      (by decide) (by decide) (by decide)

theorem hasFiltersIn_iff (fc : FiltersConfig) :
    hasFiltersIn fc = true ↔ ∃ l, fc = some (some l) ∧ l ≠ [] := by
  rcases fc with _ | fc
  · simp [hasFiltersIn]
  · rcases fc with _ | l <;> simp [hasFiltersIn]

/-- C10: the `Filters` component always dispatches the selected filter list
followed by an ordering reset, and the selection follows the precedence: an
ADMIN user with non-empty user filters or user filters explicitly `null`
applies the user filters (the empty list when `null`); otherwise non-empty
table filters; otherwise non-empty user filters; otherwise the empty list. -/
theorem filters_precedence_and_order_reset (roles : Option (List String))
    (uf tf : FiltersConfig) :
    filtersEffect true roles uf tf =
      [FilterEffect.applyFilters (filtersToApply roles uf tf),
       FilterEffect.resetOrder] ∧
    ((∃ rs, roles = some rs ∧ "ADMIN" ∈ rs) ∧
        ((∃ l, uf = some (some l) ∧ l ≠ []) ∨ uf = some none) →
      (∀ l, uf = some (some l) → filtersToApply roles uf tf = l) ∧
      (uf = some none → filtersToApply roles uf tf = [])) ∧
    (¬((∃ rs, roles = some rs ∧ "ADMIN" ∈ rs) ∧
        ((∃ l, uf = some (some l) ∧ l ≠ []) ∨ uf = some none)) →
      (∀ l, tf = some (some l) → l ≠ [] → filtersToApply roles uf tf = l) ∧
      (¬(∃ l, tf = some (some l) ∧ l ≠ []) →
        (∀ l, uf = some (some l) → l ≠ [] → filtersToApply roles uf tf = l) ∧
        (¬(∃ l, uf = some (some l) ∧ l ≠ []) →
          filtersToApply roles uf tf = []))) := by
  have hA : isAdminRoles roles = true ↔ ∃ rs, roles = some rs ∧ "ADMIN" ∈ rs := by
    rcases roles with _ | rs <;> simp [isAdminRoles]
  have hCiff : (isAdminRoles roles &&
        (hasFiltersIn uf || decide (uf = some none))) = true ↔
      ((∃ rs, roles = some rs ∧ "ADMIN" ∈ rs) ∧
        ((∃ l, uf = some (some l) ∧ l ≠ []) ∨ uf = some none)) := by
    rw [Bool.and_eq_true, Bool.or_eq_true, hA, hasFiltersIn_iff,
      decide_eq_true_eq]
  refine ⟨?_, ?_, ?_⟩
  · unfold filtersEffect
    rw [if_neg (by simp)]
  · intro h
    have hb := hCiff.mpr h
    constructor
    · intro l hl
      unfold filtersToApply
      rw [if_pos hb, hl]
    · intro hl
      unfold filtersToApply
      rw [if_pos hb, hl]
  · intro hn
    have hb : (isAdminRoles roles &&
          (hasFiltersIn uf || decide (uf = some none))) = false := by
      cases hC : (isAdminRoles roles &&
          (hasFiltersIn uf || decide (uf = some none))) with
      | false => rfl
      | true => exact absurd (hCiff.mp hC) hn
    constructor
    · intro l hl hne
      have hTf : hasFiltersIn tf = true :=
        (hasFiltersIn_iff tf).mpr ⟨l, hl, hne⟩
      unfold filtersToApply
      rw [hb, if_neg (by simp), if_pos hTf, hl]
    · intro hT
      have hTf : hasFiltersIn tf = false := by
        cases hC : hasFiltersIn tf with
        | false => rfl
        | true => exact absurd ((hasFiltersIn_iff tf).mp hC) hT
      constructor
      · intro l hl hne
        have hUf : hasFiltersIn uf = true :=
          (hasFiltersIn_iff uf).mpr ⟨l, hl, hne⟩
        unfold filtersToApply
        rw [hb, if_neg (by simp), hTf, if_neg (by simp), if_pos hUf, hl]
      · intro hU
        have hUf : hasFiltersIn uf = false := by
          cases hC : hasFiltersIn uf with
          | false => rfl
          | true => exact absurd ((hasFiltersIn_iff uf).mp hC) hU
        unfold filtersToApply
        rw [hb, if_neg (by simp), hTf, if_neg (by simp), hUf,
          if_neg (by simp)]

theorem filters_precedence_and_order_reset_witness :
    filtersEffect true (some ["ADMIN"]) (some none)
        (some (some [⟨"k", "==", Value.num 1⟩])) =
      [FilterEffect.applyFilters
        (filtersToApply (some ["ADMIN"]) (some none)
          (some (some [⟨"k", "==", Value.num 1⟩]))),
       FilterEffect.resetOrder] ∧
    filtersToApply (some ["ADMIN"]) (some none)
        (some (some [⟨"k", "==", Value.num 1⟩])) = [] := by
  refine ⟨(filters_precedence_and_order_reset (some ["ADMIN"]) (some none)
    (some (some [⟨"k", "==", Value.num 1⟩]))).1,
    ((filters_precedence_and_order_reset (some ["ADMIN"]) (some none)
      (some (some [⟨"k", "==", Value.num 1⟩]))).2.1 ?_).2 rfl⟩
  exact ⟨⟨["ADMIN"], rfl, by decide⟩, Or.inr rfl⟩

end Rowy
